import Mathlib

/-!
Shallow embedding of the detection and redaction pipeline of the
id-redaction-tool repository.

Text is modelled as `List Char` (JS strings over the ASCII inputs at stake);
numeric coordinates and confidences are modelled as `Rat` (JS floating-point
arithmetic on the small integral and decimal values used here is exact, and
so coincides with exact rational arithmetic).  The JS regular expressions of
`patternDetector.ts` are fixed-shape patterns; each is embedded as a
deterministic matcher `tryAt : List Char → Nat → Option Nat` returning the
match length at a position, and `matchAll` is a left-to-right non-overlapping
scan over all positions, exactly the semantics of a global JS regex whose
every alternative has a fixed shape.
-/

/-- `BoundingBox` from `src/types/index.ts`. -/
structure BoundingBox where
  x : Rat
  y : Rat
  width : Rat
  height : Rat
deriving Repr, DecidableEq

/-- `TextBlock` from `src/types/index.ts`. -/
structure TextBlock where
  text : List Char
  confidence : Rat
  bbox : BoundingBox
deriving Repr, DecidableEq

/-- `PageData` from `src/types/index.ts`. -/
structure PageData where
  pageNumber : Nat
  width : Rat
  height : Rat
  textBlocks : List TextBlock
deriving Repr, DecidableEq

/-- `OCRResult` from `src/types/index.ts` (the optional error string is
omitted: the detector never reads it). -/
structure OCRResult where
  pages : List PageData
  success : Bool
deriving Repr, DecidableEq

/-- `DetectionType` from `src/types/index.ts`. -/
inductive DetectionType where
  | AADHAAR
  | PAN
  | PHONE
  | ADDRESS
deriving Repr, DecidableEq

/-- `Detection` from `src/types/index.ts`. -/
structure Detection where
  type : DetectionType
  value : List Char
  confidence : Rat
  bbox : BoundingBox
  pageNumber : Nat
deriving Repr, DecidableEq

/-- `DetectionResult` from `src/types/index.ts`. -/
structure DetectionResult where
  aadhaarNumbers : List Detection
  panNumbers : List Detection
  phoneNumbers : List Detection
  addresses : List Detection
deriving Repr, DecidableEq

/-- JS regex word-character class `[A-Za-z0-9_]` (ASCII inputs). -/
def isWordChar (c : Char) : Bool := c.isAlphanum || c == '_'

/-- Does the character at index `i` exist and satisfy `p`? -/
def charSat (cs : List Char) (i : Nat) (p : Char → Bool) : Bool :=
  match cs[i]? with
  | some c => p c
  | none => false

/-- Is the character at index `i` a word character (out of range counts as
non-word)? -/
def wordAt (cs : List Char) (i : Nat) : Bool := charSat cs i isWordChar

/-- Word-character-ness of the character before index `i`. -/
def prevWordAt (cs : List Char) (i : Nat) : Bool :=
  match i with
  | 0 => false
  | Nat.succ j => wordAt cs j

/-- JS regex `\b`: a word boundary sits at position `i` iff exactly one of
the characters around the position is a word character. -/
def boundaryAt (cs : List Char) (i : Nat) : Bool := prevWordAt cs i != wordAt cs i

/-- `k` consecutive digits starting at index `i` (JS `\d{k}`). -/
def digitRunAt (cs : List Char) (i k : Nat) : Bool :=
  (List.range k).all (fun j => charSat cs (i + j) Char.isDigit)

/-- `k` consecutive uppercase letters starting at index `i` (JS `[A-Z]{k}`). -/
def upperRunAt (cs : List Char) (i k : Nat) : Bool :=
  (List.range k).all (fun j => charSat cs (i + j) Char.isUpper)

/-- JS character class `[\s-]` at index `i`. -/
def sepAt (cs : List Char) (i : Nat) : Bool :=
  charSat cs i (fun c => c.isWhitespace || c == '-')

/-- Left-to-right non-overlapping scan: at each position try the pattern;
on a match of length `len`, record `(i, len)` and resume after it, exactly
as `String.prototype.matchAll` advances `lastIndex`.  `fuel` bounds the
number of examined positions; `scanPattern` supplies `length + 1`, enough
to examine every starting position. -/
def scanAux (tryAt : Nat → Option Nat) : Nat → Nat → List (Nat × Nat)
  | 0, _ => []
  | Nat.succ fuel, i =>
    match tryAt i with
    | some len => (i, len) :: scanAux tryAt fuel (i + len)
    | none => scanAux tryAt fuel (i + 1)

/-- All matches of a fixed-shape pattern in `cs` (JS `cs.matchAll(pattern)`). -/
def scanPattern (tryAt : List Char → Nat → Option Nat) (cs : List Char) : List (Nat × Nat) :=
  scanAux (tryAt cs) (cs.length + 1) 0

/-- `\b\d{k}\b` (the code uses `k = 12` for Aadhaar and `k = 10` for
phones). -/
def tryPlain (k : Nat) (cs : List Char) (i : Nat) : Option Nat :=
  if boundaryAt cs i && digitRunAt cs i k && boundaryAt cs (i + k) then some k else none

/-- `\b\d{4}X\d{4}X\d{4}\b` where `X` is the separator class: `\s` for the
space-separated Aadhaar pattern, `-` for the hyphen-separated one. -/
def tryGrouped (sep : Char → Bool) (cs : List Char) (i : Nat) : Option Nat :=
  if boundaryAt cs i && digitRunAt cs i 4 && charSat cs (i + 4) sep &&
      digitRunAt cs (i + 5) 4 && charSat cs (i + 9) sep &&
      digitRunAt cs (i + 10) 4 && boundaryAt cs (i + 14) then some 14 else none

/-- The three Aadhaar regexes of `detectAadhaar`, in source order. -/
def aadhaarPatterns : List (List Char → Nat → Option Nat) :=
  [tryPlain 12, tryGrouped Char.isWhitespace, tryGrouped (fun c => c == '-')]

/-- `\b[A-Z]{5}\d{4}[A-Z]\b`, the single PAN regex of `detectPAN`. -/
def tryPAN (cs : List Char) (i : Nat) : Option Nat :=
  if boundaryAt cs i && upperRunAt cs i 5 && digitRunAt cs (i + 5) 4 &&
      charSat cs (i + 9) Char.isUpper && boundaryAt cs (i + 10) then some 10 else none

/-- `\+91[\s-]?\d{10}\b`.  The optional separator is resolved
deterministically: when a separator is present but the rest fails, the
regex backtrack (dropping the separator) also fails, since `\d{10}` cannot
start on the separator character. -/
def tryPlus91 (cs : List Char) (i : Nat) : Option Nat :=
  if charSat cs i (fun c => c == '+') && charSat cs (i + 1) (fun c => c == '9') &&
      charSat cs (i + 2) (fun c => c == '1') then
    if sepAt cs (i + 3) then
      if digitRunAt cs (i + 4) 10 && boundaryAt cs (i + 14) then some 14 else none
    else
      if digitRunAt cs (i + 3) 10 && boundaryAt cs (i + 13) then some 13 else none
  else none

/-- `\b91[\s-]\d{10}\b`. -/
def try91Sep (cs : List Char) (i : Nat) : Option Nat :=
  if boundaryAt cs i && charSat cs i (fun c => c == '9') && charSat cs (i + 1) (fun c => c == '1') &&
      sepAt cs (i + 2) && digitRunAt cs (i + 3) 10 && boundaryAt cs (i + 13) then some 13 else none

/-- `\(\+?91\)[\s-]?\d{10}\b`; optional parts resolved deterministically as
in `tryPlus91`. -/
def tryParen91 (cs : List Char) (i : Nat) : Option Nat :=
  if charSat cs i (fun c => c == '(') then
    let j := if charSat cs (i + 1) (fun c => c == '+') then i + 2 else i + 1
    if charSat cs j (fun c => c == '9') && charSat cs (j + 1) (fun c => c == '1') &&
        charSat cs (j + 2) (fun c => c == ')') then
      if sepAt cs (j + 3) then
        if digitRunAt cs (j + 4) 10 && boundaryAt cs (j + 14) then some (j + 14 - i) else none
      else
        if digitRunAt cs (j + 3) 10 && boundaryAt cs (j + 13) then some (j + 13 - i) else none
    else none
  else none

/-- `\b\d{5}[\s-]\d{5}\b`. -/
def try55 (cs : List Char) (i : Nat) : Option Nat :=
  if boundaryAt cs i && digitRunAt cs i 5 && sepAt cs (i + 5) &&
      digitRunAt cs (i + 6) 5 && boundaryAt cs (i + 11) then some 11 else none

/-- `\b\d{3}[\s-]\d{3}[\s-]\d{4}\b`. -/
def try334 (cs : List Char) (i : Nat) : Option Nat :=
  if boundaryAt cs i && digitRunAt cs i 3 && sepAt cs (i + 3) &&
      digitRunAt cs (i + 4) 3 && sepAt cs (i + 7) && digitRunAt cs (i + 8) 4 &&
      boundaryAt cs (i + 12) then some 12 else none

/-- The six phone regexes of `detectPhone`, in source order. -/
def phonePatterns : List (List Char → Nat → Option Nat) :=
  [tryPlain 10, tryPlus91, try91Sep, tryParen91, try55, try334]

/-- JS `str.substring(i, i + len)` restricted to our match slices. -/
def sliceAt (cs : List Char) (i len : Nat) : List Char := (cs.drop i).take len

/-- `page.textBlocks.map(block => block.text).join(' ')`. -/
def joinTexts (blocks : List TextBlock) : List Char :=
  List.intercalate [' '] (blocks.map (fun b => b.text))

/-- `Math.min(...)` folded over a list with a starting value. -/
def foldMin (a : Rat) (l : List Rat) : Rat := l.foldl min a

/-- `Math.max(...)` folded over a list with a starting value. -/
def foldMax (a : Rat) (l : List Rat) : Rat := l.foldl max a

/-- `PatternDetector.mergeBoundingBoxes`. -/
def mergeBoundingBoxes : List BoundingBox → BoundingBox
  | [] => ⟨0, 0, 0, 0⟩
  | [b] => b
  | b :: rest =>
    let minX := foldMin b.x (rest.map (fun c => c.x))
    let minY := foldMin b.y (rest.map (fun c => c.y))
    let maxX := foldMax (b.x + b.width) (rest.map (fun c => c.x + c.width))
    let maxY := foldMax (b.y + b.height) (rest.map (fun c => c.y + c.height))
    ⟨minX, minY, maxX - minX, maxY - minY⟩

/-- The block-collection loop of `findBoundingBoxForMatch`: walk the blocks
tracking the running offset `cur` in the joined text (each block occupies
`[cur, cur + len)` followed by one separator), collect blocks overlapping
the match range, and stop early once past the match end (the source loop's
`break`). -/
def involvedBlocksAux (mi len : Nat) : List TextBlock → Nat → List TextBlock
  | [], _ => []
  | b :: rest, cur =>
    let be := cur + b.text.length
    let here := if be > mi ∧ cur < mi + len then [b] else []
    if be + 1 > mi + len then here
    else here ++ involvedBlocksAux mi len rest (be + 1)

/-- `PatternDetector.findBoundingBoxForMatch`. -/
def findBoundingBoxForMatch (matchLen matchIndex : Nat) (textBlocks : List TextBlock) :
    Option BoundingBox :=
  match involvedBlocksAux matchIndex matchLen textBlocks 0 with
  | [] => none
  | bs => some (mergeBoundingBoxes (bs.map (fun b => b.bbox)))

/-- Shared detection-building loop of `detectAadhaar` / `detectPAN`: one
detection per match that has a reconcilable bounding box, matches without
geometry silently dropped. -/
def mkDetections (t : DetectionType) (conf : Rat) (page : PageData) (cs : List Char)
    (ms : List (Nat × Nat)) : List Detection :=
  ms.filterMap (fun m =>
    match findBoundingBoxForMatch m.2 m.1 page.textBlocks with
    | some bbox => some ⟨t, sliceAt cs m.1 m.2, conf, bbox, page.pageNumber⟩
    | none => none)

/-- All matches of a list of patterns, pattern-major order as in the nested
source loops. -/
def matchesFor (pats : List (List Char → Nat → Option Nat)) (cs : List Char) :
    List (Nat × Nat) :=
  (pats.map (fun p => scanPattern p cs)).flatten

/-- Per-page body of `PatternDetector.detectAadhaar`. -/
def detectAadhaarPage (page : PageData) : List Detection :=
  let cs := joinTexts page.textBlocks
  mkDetections DetectionType.AADHAAR 0.9 page cs (matchesFor aadhaarPatterns cs)

/-- `PatternDetector.detectAadhaar`. -/
def detectAadhaar (ocr : OCRResult) : List Detection :=
  (ocr.pages.map detectAadhaarPage).flatten

/-- Per-page body of `PatternDetector.detectPAN`. -/
def detectPANPage (page : PageData) : List Detection :=
  let cs := joinTexts page.textBlocks
  mkDetections DetectionType.PAN 0.9 page cs (matchesFor [tryPAN] cs)

/-- `PatternDetector.detectPAN`. -/
def detectPAN (ocr : OCRResult) : List Detection :=
  (ocr.pages.map detectPANPage).flatten

/-- JS `matchedText.replace(/\D/g, '')`. -/
def digitsOf (cs : List Char) : List Char := cs.filter Char.isDigit

/-- JS `normalized.replace(/^91/, '')`. -/
def strip91 (cs : List Char) : List Char :=
  match cs with
  | '9' :: '1' :: rest => rest
  | _ => cs

/-- JS `/^[6-9]/.test(digits)`. -/
def leadingSixToNine (cs : List Char) : Bool :=
  match cs with
  | c :: _ => (['6', '7', '8', '9'] : List Char).contains c
  | [] => false

/-- Per-candidate step of `detectPhone`'s match loop: skip candidates whose
normalized digit string was already seen; otherwise validate (10 digits
after stripping a leading `91`, leading digit 6–9), record the normalized
value as seen, and emit a detection when a bounding box exists. -/
def phoneFoldStep (page : PageData) (cs : List Char)
    (st : List (List Char) × List Detection) (m : Nat × Nat) :
    List (List Char) × List Detection :=
  let matched := sliceAt cs m.1 m.2
  let normalized := digitsOf matched
  if st.1.contains normalized then st
  else
    let digits := strip91 normalized
    if digits.length == 10 && leadingSixToNine digits then
      let seen := normalized :: st.1
      match findBoundingBoxForMatch m.2 m.1 page.textBlocks with
      | some bbox =>
        (seen, st.2 ++ [⟨DetectionType.PHONE, matched, 0.85, bbox, page.pageNumber⟩])
      | none => (seen, st.2)
    else st

/-- Per-page body of `PatternDetector.detectPhone` (the `detectedValues`
set is created afresh for each page). -/
def detectPhonePage (page : PageData) : List Detection :=
  let cs := joinTexts page.textBlocks
  ((matchesFor phonePatterns cs).foldl (phoneFoldStep page cs) ([], [])).2

/-- `PatternDetector.detectPhone`. -/
def detectPhone (ocr : OCRResult) : List Detection :=
  (ocr.pages.map detectPhonePage).flatten

/-- `PatternDetector.calculateOverlapArea`. -/
def calculateOverlapArea (box1 box2 : BoundingBox) : Rat :=
  let x1 := max box1.x box2.x
  let y1 := max box1.y box2.y
  let x2 := min (box1.x + box1.width) (box2.x + box2.width)
  let y2 := min (box1.y + box1.height) (box2.y + box2.height)
  if x2 ≤ x1 ∨ y2 ≤ y1 then 0 else (x2 - x1) * (y2 - y1)

/-- Inner `j` loop of `deduplicateAddresses`: scan the remaining indices,
marking as used every unused same-page detection whose overlap with
`current` exceeds half of either area, and replacing the kept candidate by
`other` whenever `other`'s area exceeds `current`'s area. -/
def dedupScan (ds : List Detection) (current : Detection) :
    List Nat → Detection → List Nat → List Nat × Detection
  | used, best, [] => (used, best)
  | used, best, j :: js =>
    if used.contains j then dedupScan ds current used best js
    else
      match ds[j]? with
      | none => dedupScan ds current used best js
      | some other =>
        if current.pageNumber ≠ other.pageNumber then dedupScan ds current used best js
        else
          let overlapArea := calculateOverlapArea current.bbox other.bbox
          let currentArea := current.bbox.width * current.bbox.height
          let otherArea := other.bbox.width * other.bbox.height
          if overlapArea > currentArea * 0.5 ∨ overlapArea > otherArea * 0.5 then
            dedupScan ds current (j :: used) (if otherArea > currentArea then other else best) js
          else dedupScan ds current used best js

/-- Outer `i` loop of `deduplicateAddresses`. -/
def dedupOuter (ds : List Detection) : List Nat → List Nat → List Detection
  | _, [] => []
  | used, i :: is' =>
    if used.contains i then dedupOuter ds used is'
    else
      match ds[i]? with
      | none => dedupOuter ds used is'
      | some current =>
        let r := dedupScan ds current (i :: used) current (List.range' (i + 1) (ds.length - (i + 1)))
        r.2 :: dedupOuter ds r.1 is'

/-- `PatternDetector.deduplicateAddresses`. -/
def deduplicateAddresses (detections : List Detection) : List Detection :=
  if detections.length ≤ 1 then detections
  else dedupOuter detections [] (List.range detections.length)

/-- One rectangle-paint command issued by `RedactionEngine.redactPDF` via
`page.drawRectangle`: a 0-indexed page, a rectangle in the page's
bottom-left-origin coordinate space, an RGB colour and an opacity. -/
structure DrawRect where
  pageIndex : Nat
  x : Rat
  y : Rat
  width : Rat
  height : Rat
  red : Rat
  green : Rat
  blue : Rat
  opacity : Rat
deriving Repr, DecidableEq

/-- The `allDetections` concatenation of `RedactionEngine.redactPDF` (and
`redactImage`): the four category lists in source order. -/
def allDetectionsOf (dr : DetectionResult) : List Detection :=
  dr.aadhaarNumbers ++ dr.panNumbers ++ dr.phoneNumbers ++ dr.addresses

/-- One step of building the page-keyed `Map`: JS `Map` iteration is in key
insertion order and `push` appends at the end of a page's list. -/
def insertGroup : List (Nat × List Detection) → Detection → List (Nat × List Detection)
  | [], d => [(d.pageNumber, [d])]
  | (k, g) :: rest, d =>
    if k = d.pageNumber then (k, g ++ [d]) :: rest else (k, g) :: insertGroup rest d

/-- `detectionsByPage` of `RedactionEngine.redactPDF`. -/
def groupByPage (l : List Detection) : List (Nat × List Detection) :=
  l.foldl insertGroup []

/-- The single `page.drawRectangle` call for one detection: the rectangle
at `(bbox.x, pageHeight - bbox.y - bbox.height)` with the bbox's width and
height, colour `rgb(0, 0, 0)` and opacity 1, on the 0-indexed page `m`. -/
def mkDrawCmd (m : Nat) (pageHeight : Rat) (d : Detection) : DrawRect :=
  ⟨m, d.bbox.x, pageHeight - d.bbox.y - d.bbox.height, d.bbox.width, d.bbox.height,
    0, 0, 0, 1⟩

/-- Per-page body of the drawing loop of `RedactionEngine.redactPDF`:
`pageIndex = pageNumber - 1`; out-of-range pages are skipped; each
detection is painted at `(x, pageHeight - y - height)` in pure black at
full opacity.  `heights` lists the PDF page heights in order. -/
def pageCmds (heights : List Rat) (pn : Nat) (dets : List Detection) : List DrawRect :=
  match pn with
  | 0 => []
  | Nat.succ m =>
    match heights[m]? with
    | none => []
    | some pageHeight => dets.map (fun d => mkDrawCmd m pageHeight d)

/-- The sequence of rectangle paints performed by
`RedactionEngine.redactPDF` on a PDF whose pages have the given heights. -/
def redactPDFCmds (heights : List Rat) (dr : DetectionResult) : List DrawRect :=
  ((groupByPage (allDetectionsOf dr)).map (fun g => pageCmds heights g.1 g.2)).flatten

/-- The two redaction paths of `RedactionEngine.applyRedactions`. -/
inductive RedactionRoute where
  | pdf
  | image
deriving Repr, DecidableEq

/-- The PDF media type string checked by `applyRedactions`. -/
def pdfMimeType : List Char := "application/pdf".toList

/-- The raster media type prefix checked by `applyRedactions`. -/
def imageMimePrefix : List Char := "image/".toList

/-- Routing logic of `RedactionEngine.applyRedactions`: PDF media type to
the PDF path, `image/*` to the raster path, anything else throws
`Unsupported file type` before any conversion work begins, so no artifact
is produced. -/
def applyRedactionsRoute (mimeType : List Char) : Except (List Char) RedactionRoute :=
  if mimeType = pdfMimeType then Except.ok RedactionRoute.pdf
  else if imageMimePrefix.isPrefixOf mimeType then Except.ok RedactionRoute.image
  else Except.error ("Unsupported file type: ".toList ++ mimeType)

/-- A sample token bounding box (the one used throughout the repository's own
unit tests). -/
def exBBox : BoundingBox := ⟨10, 10, 200, 20⟩

/-- A sample OCR token with the given text. -/
def exToken (s : String) : TextBlock := ⟨s.toList, 0.95, exBBox⟩

/-- A one-page OCR result whose tokens carry the given texts. -/
def exOCR (texts : List String) : OCRResult := ⟨[⟨1, 800, 600, texts.map exToken⟩], true⟩

/-- C1: the claim requires that a page containing a 16-digit numeric string as
a single token yields exactly one IdentifierA detection whose digits equal the
source digits with confidence 0.90.  The code has no 16-digit pattern: the
plain pattern demands a word boundary after exactly 12 digits, so on the
16-digit token "1234567890123456" `detectAadhaar` returns no detection at
all.  This evaluates the embedded code at that failing input. -/
theorem c1_sixteen_digit_token_yields_no_detection :
    detectAadhaar (exOCR ["1234567890123456"]) = [] := by rfl

/-- C2: the claim requires "ABCDE12S4F" to be normalized to "ABCDE1254F" by
an OCR-confusion pass and detected as IdentifierB with confidence 0.75.  The
code has only the single exact uppercase pattern and no fuzzy pass, so on
the token "ABCDE12S4F" `detectPAN` returns no detection at all.  This
evaluates the embedded code at that failing input. -/
theorem c2_ocr_confused_pan_yields_no_detection :
    detectPAN (exOCR ["ABCDE12S4F"]) = [] := by rfl

/-- C4: the claim requires pass-1 IdentifierB matching to be
case-insensitive.  The code's only pattern is `\b[A-Z]{5}\d{4}[A-Z]\b`
without the case-insensitive flag, so the lowercase token "abcde1234f"
yields no detection, while the uppercase "ABCDE1234F" yields exactly one
with confidence 0.90.  This evaluates the embedded code at both inputs. -/
theorem c4_lowercase_pan_yields_no_detection :
    detectPAN (exOCR ["abcde1234f"]) = [] ∧
    detectPAN (exOCR ["ABCDE1234F"]) =
      [⟨DetectionType.PAN, "ABCDE1234F".toList, 0.9, exBBox, 1⟩] := by
  exact ⟨rfl, rfl⟩

/-- A same-page Address detection with the given box, for exercising
`deduplicateAddresses`. -/
def adBox (x y w h : Rat) : Detection := ⟨DetectionType.ADDRESS, [], 0.75, ⟨x, y, w, h⟩, 1⟩

/-- Small box, area 100. -/
def dA : Detection := adBox 0 0 10 10

/-- Wide box, area 1000; overlaps `dA` on 60 > 50 = 50% of `dA`'s area. -/
def dB : Detection := adBox 4 0 100 10

/-- Box of area 100 entirely inside `dB` (overlap 100 > 50% of its area)
and disjoint from `dA`. -/
def dC : Detection := adBox 90 0 10 10

/-- C5 counterexample: the claim says that after deduplication no two
same-page Address detections overlap by more than 50% of either box's area.
On the candidate list `[dA, dB, dC]` the greedy pass merges `dB` into
`dA`'s group (their overlap exceeds half of `dA`'s area) but compares `dC`
only against `dA`, with which it is disjoint; the result `[dB, dC]` keeps
two same-page boxes whose overlap (100) exceeds 50% of `dC`'s area (50),
refuting the claim as stated. -/
theorem c5_counterexample_overlapping_pair_survives :
    deduplicateAddresses [dA, dB, dC] = [dB, dC] ∧
    calculateOverlapArea dB.bbox dC.bbox > dC.bbox.width * dC.bbox.height * 0.5 ∧
    dB.pageNumber = dC.pageNumber := by
  refine ⟨?_, ?_, rfl⟩
  · norm_num [deduplicateAddresses, dedupOuter, dedupScan, List.range, List.range',
      calculateOverlapArea, dA, dB, dC, adBox, max_def, min_def, List.contains]
  · norm_num [calculateOverlapArea, dB, dC, adBox, max_def, min_def]

/-- C8 counterexample: the claim says no two Phone detections on a page
refer to the same 10-digit subscriber number even across country-code
formats.  The code deduplicates by the digits of the matched text with the
country code included, so a page containing "9876543210" and
"+91 9876543210" yields two detections for the same subscriber number. -/
theorem c8_counterexample_same_subscriber_twice :
    ¬ ((detectPhone (exOCR ["9876543210", "+91 9876543210"])).Pairwise
        (fun a b => a.pageNumber = b.pageNumber →
          strip91 (digitsOf a.value) ≠ strip91 (digitsOf b.value))) := by
  decide

/-- C9: the redaction entry point fails with the unsupported-format error
exactly when the media type is neither the PDF type nor an `image/*` type,
and in that case it returns the error without producing any artifact. -/
theorem c9_unsupported_format_iff (m : List Char) :
    (∃ e, applyRedactionsRoute m = Except.error e) ↔
      ¬(m = pdfMimeType ∨ imageMimePrefix.isPrefixOf m = true) := by
  unfold applyRedactionsRoute
  by_cases h1 : m = pdfMimeType
  · simp [h1]
  · by_cases h2 : imageMimePrefix.isPrefixOf m
    · simp [h1, h2]
    · simp [h1, h2]

/-- Witness for C9 at the concrete unsupported media type "text/plain". -/
theorem c9_unsupported_format_iff_witness :
    ∃ e, applyRedactionsRoute ("text/plain".toList) = Except.error e :=
  (c9_unsupported_format_iff ("text/plain".toList)).mpr (by decide)

/-- What `detectPhone` guarantees about each emitted detection: PHONE type,
confidence 0.85, the page's number, and validity of the matched text (after
reducing it to its digits and stripping a leading country code `91`, ten
digits remain and the first is 6, 7, 8 or 9). -/
def phoneDetectionOk (page : PageData) (d : Detection) : Prop :=
  d.type = DetectionType.PHONE ∧ d.confidence = 0.85 ∧ d.pageNumber = page.pageNumber ∧
  (strip91 (digitsOf d.value)).length = 10 ∧
  leadingSixToNine (strip91 (digitsOf d.value)) = true

/-- One step of the phone match loop preserves: every accumulated
detection's normalized digit string is recorded as seen, the accumulated
normalized digit strings are pairwise distinct, and every accumulated
detection satisfies `phoneDetectionOk`. -/
theorem phoneFoldStep_preserves (page : PageData) (cs : List Char)
    (st : List (List Char) × List Detection) (m : Nat × Nat)
    (h1 : ∀ d ∈ st.2, digitsOf d.value ∈ st.1)
    (h2 : st.2.Pairwise fun a b => digitsOf a.value ≠ digitsOf b.value)
    (h3 : ∀ d ∈ st.2, phoneDetectionOk page d) :
    (∀ d ∈ (phoneFoldStep page cs st m).2, digitsOf d.value ∈ (phoneFoldStep page cs st m).1) ∧
    ((phoneFoldStep page cs st m).2.Pairwise fun a b => digitsOf a.value ≠ digitsOf b.value) ∧
    (∀ d ∈ (phoneFoldStep page cs st m).2, phoneDetectionOk page d) := by
  unfold phoneFoldStep
  by_cases hc : st.1.contains (digitsOf (sliceAt cs m.1 m.2))
  · simp only [hc, if_true]
    exact ⟨h1, h2, h3⟩
  · rw [Bool.not_eq_true] at hc
    simp only [hc, Bool.false_eq_true, if_false]
    have hnotmem : digitsOf (sliceAt cs m.1 m.2) ∉ st.1 := by
      intro hm
      have helem := List.elem_iff.mpr hm
      rw [show st.1.contains (digitsOf (sliceAt cs m.1 m.2)) =
        List.elem (digitsOf (sliceAt cs m.1 m.2)) st.1 from rfl, helem] at hc
      cases hc
    by_cases hv : ((strip91 (digitsOf (sliceAt cs m.1 m.2))).length == 10 &&
        leadingSixToNine (strip91 (digitsOf (sliceAt cs m.1 m.2)))) = true
    · simp only [hv, if_true]
      have hvl := hv
      rw [Bool.and_eq_true, beq_iff_eq] at hvl
      rcases hb : findBoundingBoxForMatch m.2 m.1 page.textBlocks with _ | bbox
      · simp only [hb]
        refine ⟨fun d hd => List.mem_cons_of_mem _ (h1 d hd), h2, h3⟩
      · simp only [hb]
        constructor
        · intro d hd
          rcases List.mem_append.mp hd with hd | hd
          · exact List.mem_cons_of_mem _ (h1 d hd)
          · rw [List.mem_singleton.mp hd]
            exact List.mem_cons_self _ _
        constructor
        · rw [List.pairwise_append]
          refine ⟨h2, List.pairwise_singleton _ _, ?_⟩
          intro a ha b hb'
          rw [List.mem_singleton.mp hb']
          intro hcontra
          exact hnotmem (hcontra ▸ h1 a ha)
        · intro d hd
          rcases List.mem_append.mp hd with hd | hd
          · exact h3 d hd
          · rw [List.mem_singleton.mp hd]
            exact ⟨rfl, rfl, rfl, hvl.1, hvl.2⟩
    · rw [Bool.not_eq_true] at hv
      simp only [hv, Bool.false_eq_true, if_false]
      exact ⟨h1, h2, h3⟩

/-- The phone match loop as a whole keeps normalized digit strings pairwise
distinct and emits only detections satisfying `phoneDetectionOk`. -/
theorem phoneFold_sound (page : PageData) (cs : List Char) (ms : List (Nat × Nat))
    (st : List (List Char) × List Detection)
    (h1 : ∀ d ∈ st.2, digitsOf d.value ∈ st.1)
    (h2 : st.2.Pairwise fun a b => digitsOf a.value ≠ digitsOf b.value)
    (h3 : ∀ d ∈ st.2, phoneDetectionOk page d) :
    ((ms.foldl (phoneFoldStep page cs) st).2.Pairwise
        fun a b => digitsOf a.value ≠ digitsOf b.value) ∧
    (∀ d ∈ (ms.foldl (phoneFoldStep page cs) st).2, phoneDetectionOk page d) := by
  induction ms generalizing st with
  | nil => exact ⟨h2, h3⟩
  | cons m ms ih =>
    rw [List.foldl_cons]
    have h' := phoneFoldStep_preserves page cs st m h1 h2 h3
    exact ih _ h'.1 h'.2.1 h'.2.2

/-- Per-page soundness of phone detection. -/
theorem detectPhonePage_sound (page : PageData) :
    ((detectPhonePage page).Pairwise fun a b => digitsOf a.value ≠ digitsOf b.value) ∧
    ∀ d ∈ detectPhonePage page, phoneDetectionOk page d := by
  unfold detectPhonePage
  exact phoneFold_sound page _ _ ([], []) (by simp) List.Pairwise.nil (by simp)

/-- The phone detection produced by the positive example page. -/
def exPhoneDetection : Detection :=
  ⟨DetectionType.PHONE, "9876543210".toList, 0.85, exBBox, 1⟩

/-- C3: every Phone detection carries confidence 0.85 and a value that,
normalized to digits with a leading country-code `91` stripped, consists of
10 digits starting with 6–9; the page with token "9876543210" yields
exactly that Phone detection and the page with "5876543210" (bad leading
digit) yields none. -/
theorem c3_phone_validity (ocr : OCRResult) (d : Detection) (hd : d ∈ detectPhone ocr) :
    (d.confidence = 0.85 ∧ (strip91 (digitsOf d.value)).length = 10 ∧
      leadingSixToNine (strip91 (digitsOf d.value)) = true) ∧
    detectPhone (exOCR ["9876543210"]) = [exPhoneDetection] ∧
    detectPhone (exOCR ["5876543210"]) = [] := by
  refine ⟨?_, rfl, rfl⟩
  unfold detectPhone at hd
  rw [List.mem_flatten] at hd
  obtain ⟨l, hl, hdl⟩ := hd
  rw [List.mem_map] at hl
  obtain ⟨page, hp, rfl⟩ := hl
  have h := (detectPhonePage_sound page).2 d hdl
  exact ⟨h.2.1, h.2.2.2.1, h.2.2.2.2⟩

/-- Witness for C3 at the detection produced by the "9876543210" page. -/
theorem c3_phone_validity_witness :
    (exPhoneDetection.confidence = 0.85 ∧
      (strip91 (digitsOf exPhoneDetection.value)).length = 10 ∧
      leadingSixToNine (strip91 (digitsOf exPhoneDetection.value)) = true) ∧
    detectPhone (exOCR ["9876543210"]) = [exPhoneDetection] ∧
    detectPhone (exOCR ["5876543210"]) = [] :=
  c3_phone_validity (exOCR ["9876543210"]) exPhoneDetection
    (by rw [show detectPhone (exOCR ["9876543210"]) = [exPhoneDetection] from rfl]
        exact List.mem_singleton_self _)

/-- C8 (amended): within a single page's output, Phone detections are
deduplicated by normalized digit string — the digits of the matched text,
any country-code prefix included — so no two detections for one page share
that normalized string.  (The original claim, keyed on the 10-digit
subscriber number instead, fails: see the counterexample.) -/
theorem c8_phone_dedup_by_normalized_digit_string (page : PageData) :
    (detectPhonePage page).Pairwise fun a b => digitsOf a.value ≠ digitsOf b.value :=
  (detectPhonePage_sound page).1

/-- Witness for C8 at the two-format example page. -/
theorem c8_phone_dedup_witness :
    ((detectPhonePage ⟨1, 800, 600, ["9876543210", "+91 9876543210"].map exToken⟩).Pairwise
      fun a b => digitsOf a.value ≠ digitsOf b.value) :=
  c8_phone_dedup_by_normalized_digit_string _

/-- C5 (amended): for a candidate list of exactly two Address detections on
the same page, deduplication behaves as the claim describes: if the boxes
overlap by more than 50% of either box's area, exactly the detection with
the strictly larger box area is kept (the first on ties); otherwise both
are kept, and by the failed test their overlap is at most 50% of each box's
area.  (With three or more candidates the greedy pass compares only against
the group's first element, and the original pairwise guarantee fails: see
the counterexample.) -/
theorem c5_dedup_pair (d1 d2 : Detection) (hpage : d1.pageNumber = d2.pageNumber) :
    (¬ (calculateOverlapArea d1.bbox d2.bbox > d1.bbox.width * d1.bbox.height * 0.5 ∨
        calculateOverlapArea d1.bbox d2.bbox > d2.bbox.width * d2.bbox.height * 0.5) →
      deduplicateAddresses [d1, d2] = [d1, d2]) ∧
    ((calculateOverlapArea d1.bbox d2.bbox > d1.bbox.width * d1.bbox.height * 0.5 ∨
        calculateOverlapArea d1.bbox d2.bbox > d2.bbox.width * d2.bbox.height * 0.5) →
      deduplicateAddresses [d1, d2] =
        [if d2.bbox.width * d2.bbox.height > d1.bbox.width * d1.bbox.height then d2 else d1]) := by
  have hrange : List.range 2 = [0, 1] := by decide
  constructor <;> intro hcond <;>
    simp [deduplicateAddresses, hrange, dedupOuter, dedupScan, List.range',
      hpage, hcond, List.contains]

/-- Witness for C5 at the overlapping pair `dA`, `dB`. -/
theorem c5_dedup_pair_witness :
    (¬ (calculateOverlapArea dA.bbox dB.bbox > dA.bbox.width * dA.bbox.height * 0.5 ∨
        calculateOverlapArea dA.bbox dB.bbox > dB.bbox.width * dB.bbox.height * 0.5) →
      deduplicateAddresses [dA, dB] = [dA, dB]) ∧
    ((calculateOverlapArea dA.bbox dB.bbox > dA.bbox.width * dA.bbox.height * 0.5 ∨
        calculateOverlapArea dA.bbox dB.bbox > dB.bbox.width * dB.bbox.height * 0.5) →
      deduplicateAddresses [dA, dB] =
        [if dB.bbox.width * dB.bbox.height > dA.bbox.width * dA.bbox.height then dB else dA]) :=
  c5_dedup_pair dA dB rfl

/-- `insertGroup` preserves the invariant that a group's detections all
carry the group's page number as key. -/
theorem insertGroup_keys (gs : List (Nat × List Detection)) (x : Detection)
    (h : ∀ kg ∈ gs, ∀ d ∈ kg.2, d.pageNumber = kg.1) :
    ∀ kg ∈ insertGroup gs x, ∀ d ∈ kg.2, d.pageNumber = kg.1 := by
  induction gs with
  | nil =>
    intro kg hkg d hd
    simp only [insertGroup, List.mem_singleton] at hkg
    subst hkg
    simp only [List.mem_singleton] at hd
    subst hd
    rfl
  | cons g gs ih =>
    obtain ⟨k, gl⟩ := g
    intro kg hkg d hd
    simp only [insertGroup] at hkg
    by_cases hk : k = x.pageNumber
    · rw [if_pos hk] at hkg
      rcases List.mem_cons.mp hkg with rfl | hkg
      · rcases List.mem_append.mp hd with hd | hd
        · exact h (k, gl) (List.mem_cons_self _ _) d hd
        · rw [List.mem_singleton.mp hd]
          exact hk.symm
      · exact h kg (List.mem_cons_of_mem _ hkg) d hd
    · rw [if_neg hk] at hkg
      rcases List.mem_cons.mp hkg with rfl | hkg
      · exact h (k, gl) (List.mem_cons_self _ _) d hd
      · exact ih (fun kg h' => h kg (List.mem_cons_of_mem _ h')) kg hkg d hd

/-- Membership across one `insertGroup` step: the grouped elements are the
old ones plus the inserted one. -/
theorem mem_insertGroup (gs : List (Nat × List Detection)) (x a : Detection) :
    (∃ kg ∈ insertGroup gs x, a ∈ kg.2) ↔ (∃ kg ∈ gs, a ∈ kg.2) ∨ a = x := by
  induction gs with
  | nil => simp [insertGroup]
  | cons g gs ih =>
    obtain ⟨k, gl⟩ := g
    simp only [insertGroup]
    by_cases hk : k = x.pageNumber
    · rw [if_pos hk]
      constructor
      · rintro ⟨kg, hkg, ha⟩
        rcases List.mem_cons.mp hkg with rfl | hkg
        · rcases List.mem_append.mp ha with ha | ha
          · exact Or.inl ⟨(k, gl), List.mem_cons_self _ _, ha⟩
          · exact Or.inr (List.mem_singleton.mp ha)
        · exact Or.inl ⟨kg, List.mem_cons_of_mem _ hkg, ha⟩
      · rintro (⟨kg, hkg, ha⟩ | rfl)
        · rcases List.mem_cons.mp hkg with rfl | hkg
          · exact ⟨(k, gl ++ [x]), List.mem_cons_self _ _, List.mem_append_left _ ha⟩
          · exact ⟨kg, List.mem_cons_of_mem _ hkg, ha⟩
        · exact ⟨(k, gl ++ [a]), List.mem_cons_self _ _,
            List.mem_append_right _ (List.mem_singleton_self _)⟩
    · rw [if_neg hk]
      constructor
      · rintro ⟨kg, hkg, ha⟩
        rcases List.mem_cons.mp hkg with rfl | hkg
        · exact Or.inl ⟨(k, gl), List.mem_cons_self _ _, ha⟩
        · rcases ih.mp ⟨kg, hkg, ha⟩ with h | h
          · obtain ⟨kg', h1, h2⟩ := h
            exact Or.inl ⟨kg', List.mem_cons_of_mem _ h1, h2⟩
          · exact Or.inr h
      · rintro (⟨kg, hkg, ha⟩ | rfl)
        · rcases List.mem_cons.mp hkg with rfl | hkg
          · exact ⟨(k, gl), List.mem_cons_self _ _, ha⟩
          · obtain ⟨kg', h1, h2⟩ := ih.mpr (Or.inl ⟨kg, hkg, ha⟩)
            exact ⟨kg', List.mem_cons_of_mem _ h1, h2⟩
        · obtain ⟨kg', h1, h2⟩ := ih.mpr (Or.inr rfl)
          exact ⟨kg', List.mem_cons_of_mem _ h1, h2⟩

/-- The grouping fold preserves the key invariant. -/
theorem foldl_insertGroup_keys (l : List Detection) (gs : List (Nat × List Detection))
    (h : ∀ kg ∈ gs, ∀ d ∈ kg.2, d.pageNumber = kg.1) :
    ∀ kg ∈ l.foldl insertGroup gs, ∀ d ∈ kg.2, d.pageNumber = kg.1 := by
  induction l generalizing gs with
  | nil => exact h
  | cons x l ih =>
    rw [List.foldl_cons]
    exact ih _ (insertGroup_keys gs x h)

/-- Every detection in a group of `groupByPage` has the group's key as its
page number. -/
theorem groupByPage_keys (l : List Detection) :
    ∀ kg ∈ groupByPage l, ∀ d ∈ kg.2, d.pageNumber = kg.1 :=
  foldl_insertGroup_keys l [] (by simp)

/-- Membership through the grouping fold. -/
theorem mem_foldl_insertGroup (l : List Detection) (gs : List (Nat × List Detection))
    (a : Detection) :
    (∃ kg ∈ l.foldl insertGroup gs, a ∈ kg.2) ↔ (∃ kg ∈ gs, a ∈ kg.2) ∨ a ∈ l := by
  induction l generalizing gs with
  | nil => simp
  | cons x l ih =>
    rw [List.foldl_cons, ih, mem_insertGroup]
    simp only [List.mem_cons]
    exact or_assoc

/-- `groupByPage` groups exactly the input detections. -/
theorem mem_groupByPage (l : List Detection) (a : Detection) :
    (∃ kg ∈ groupByPage l, a ∈ kg.2) ↔ a ∈ l := by
  rw [groupByPage, mem_foldl_insertGroup]
  simp

/-- Membership in the rectangle paints of one page of `redactPDF`. -/
theorem mem_pageCmds (heights : List Rat) (pn : Nat) (dets : List Detection) (c : DrawRect) :
    c ∈ pageCmds heights pn dets ↔
      1 ≤ pn ∧ ∃ hH, heights[pn - 1]? = some hH ∧
        ∃ d ∈ dets, c = mkDrawCmd (pn - 1) hH d := by
  cases pn with
  | zero => simp [pageCmds]
  | succ m =>
    simp only [pageCmds, Nat.succ_sub_one]
    cases hh : heights[m]? with
    | none => simp [hh]
    | some hH =>
      simp only [hh, List.mem_map, Option.some.injEq]
      constructor
      · rintro ⟨d, hd, rfl⟩
        exact ⟨Nat.succ_le_succ (Nat.zero_le m), hH, rfl, d, hd, rfl⟩
      · rintro ⟨-, hH', heq, d, hd, rfl⟩
        cases heq
        exact ⟨d, hd, rfl⟩

/-- C7: the paints of the PDF redaction path are exactly one rectangle per
detection on an existing page, at bottom-left-origin coordinates
`(x, H - y - h)` with the detection's width and height, colour pure black
`rgb(0, 0, 0)` and opacity 1, where `H` is the height of the detection's
page. -/
theorem c7_pdf_coordinate_transform (heights : List Rat) (dr : DetectionResult) (c : DrawRect) :
    c ∈ redactPDFCmds heights dr ↔
      ∃ d ∈ allDetectionsOf dr, 1 ≤ d.pageNumber ∧
        ∃ hH, heights[d.pageNumber - 1]? = some hH ∧
          c = mkDrawCmd (d.pageNumber - 1) hH d := by
  unfold redactPDFCmds
  rw [List.mem_flatten]
  constructor
  · rintro ⟨l, hl, hc⟩
    rw [List.mem_map] at hl
    obtain ⟨g, hg, rfl⟩ := hl
    rw [mem_pageCmds] at hc
    obtain ⟨h1, hH, hhh, d, hd, rfl⟩ := hc
    have hkey := groupByPage_keys _ g hg d hd
    rw [← hkey] at h1 hhh
    exact ⟨d, (mem_groupByPage _ d).mp ⟨g, hg, hd⟩, h1, hH, hhh, by rw [hkey]⟩
  · rintro ⟨d, hd, h1, hH, hhh, rfl⟩
    obtain ⟨g, hg, hdg⟩ := (mem_groupByPage (allDetectionsOf dr) d).mpr hd
    refine ⟨pageCmds heights g.1 g.2, List.mem_map.mpr ⟨g, hg, rfl⟩, ?_⟩
    rw [mem_pageCmds]
    have hkey := groupByPage_keys _ g hg d hdg
    rw [← hkey]
    exact ⟨h1, hH, hhh, d, hdg, rfl⟩

/-- The sample detection used in the C7 witness. -/
def exPdfDetection : Detection := ⟨DetectionType.AADHAAR, [], 0.9, ⟨10, 20, 30, 40⟩, 1⟩

/-- Witness for C7: on a single page of height 600, the detection at
extraction-space `(10, 20, 30, 40)` is painted at `(10, 600 - 20 - 40)`. -/
theorem c7_pdf_coordinate_transform_witness :
    mkDrawCmd 0 600 exPdfDetection ∈ redactPDFCmds [600] ⟨[exPdfDetection], [], [], []⟩ :=
  (c7_pdf_coordinate_transform [600] ⟨[exPdfDetection], [], [], []⟩
      (mkDrawCmd 0 600 exPdfDetection)).mpr
    ⟨exPdfDetection, by simp [allDetectionsOf], by decide, 600, rfl, rfl⟩

/-- The tokens whose linearized-text ranges intersect the match range
`[mi, mi + len)`: walking the blocks with running offset `cur`, a block
occupying `[cur, cur + textLength)` is collected when
`cur + textLength > mi ∧ cur < mi + len`, which for a nonempty token text
and nonempty match is exactly nonempty range intersection (final conjunct
of the C6 theorem).  This is the source's collection loop without its early
`break`. -/
def intersectingBlocks (mi len : Nat) : List TextBlock → Nat → List TextBlock
  | [], _ => []
  | b :: rest, cur =>
    (if cur + b.text.length > mi ∧ cur < mi + len then [b] else []) ++
      intersectingBlocks mi len rest (cur + b.text.length + 1)

/-- Once the running offset has passed the match end, no further block
intersects. -/
theorem intersectingBlocks_nil_of_ge (mi len : Nat) (blocks : List TextBlock) (cur : Nat)
    (h : mi + len ≤ cur) : intersectingBlocks mi len blocks cur = [] := by
  induction blocks generalizing cur with
  | nil => rfl
  | cons b rest ih =>
    simp only [intersectingBlocks]
    rw [if_neg (by omega), ih _ (by omega)]
    rfl

/-- The source loop's early `break` is harmless: the collected blocks are
exactly the intersecting ones. -/
theorem involvedBlocksAux_eq_intersecting (mi len : Nat) (blocks : List TextBlock) (cur : Nat) :
    involvedBlocksAux mi len blocks cur = intersectingBlocks mi len blocks cur := by
  induction blocks generalizing cur with
  | nil => rfl
  | cons b rest ih =>
    simp only [involvedBlocksAux, intersectingBlocks]
    by_cases hbr : cur + b.text.length + 1 > mi + len
    · rw [if_pos hbr, intersectingBlocks_nil_of_ge mi len rest _ (by omega)]
      simp
    · rw [if_neg hbr, ih]

/-- A `Math.min` fold is bounded by its starting value. -/
theorem foldMin_le_init (l : List Rat) (a : Rat) : foldMin a l ≤ a := by
  induction l generalizing a with
  | nil => exact le_refl a
  | cons x l ih =>
    exact le_trans (ih (min a x)) (min_le_left a x)

/-- A `Math.min` fold is bounded by every list element. -/
theorem foldMin_le (l : List Rat) (a : Rat) : ∀ x ∈ l, foldMin a l ≤ x := by
  induction l generalizing a with
  | nil => intro x hx; cases hx
  | cons y l ih =>
    intro x hx
    rcases List.mem_cons.mp hx with rfl | hx
    · exact le_trans (foldMin_le_init l (min a x)) (min_le_right a x)
    · exact ih (min a y) x hx

/-- Any lower bound of the start and the elements bounds a `Math.min` fold. -/
theorem le_foldMin (l : List Rat) (a c : Rat) (h1 : c ≤ a) (h2 : ∀ x ∈ l, c ≤ x) :
    c ≤ foldMin a l := by
  induction l generalizing a with
  | nil => exact h1
  | cons x l ih =>
    exact ih (min a x) (le_min h1 (h2 x (List.mem_cons_self _ _)))
      (fun y hy => h2 y (List.mem_cons_of_mem _ hy))

/-- A `Math.max` fold dominates its starting value. -/
theorem le_foldMax_init (l : List Rat) (a : Rat) : a ≤ foldMax a l := by
  induction l generalizing a with
  | nil => exact le_refl a
  | cons x l ih =>
    exact le_trans (le_max_left a x) (ih (max a x))

/-- A `Math.max` fold dominates every list element. -/
theorem le_foldMax (l : List Rat) (a : Rat) : ∀ x ∈ l, x ≤ foldMax a l := by
  induction l generalizing a with
  | nil => intro x hx; cases hx
  | cons y l ih =>
    intro x hx
    rcases List.mem_cons.mp hx with rfl | hx
    · exact le_trans (le_max_right a x) (le_foldMax_init l (max a x))
    · exact ih (max a y) x hx

/-- Any upper bound of the start and the elements bounds a `Math.max` fold. -/
theorem foldMax_le (l : List Rat) (a c : Rat) (h1 : a ≤ c) (h2 : ∀ x ∈ l, x ≤ c) :
    foldMax a l ≤ c := by
  induction l generalizing a with
  | nil => exact h1
  | cons x l ih =>
    exact ih (max a x) (max_le h1 (h2 x (List.mem_cons_self _ _)))
      (fun y hy => h2 y (List.mem_cons_of_mem _ hy))

/-- `r` encloses `b` (axis-aligned containment of boxes given as
x/y/width/height). -/
def boxContains (r b : BoundingBox) : Prop :=
  r.x ≤ b.x ∧ r.y ≤ b.y ∧ b.x + b.width ≤ r.x + r.width ∧ b.y + b.height ≤ r.y + r.height

/-- The merged bounding box encloses every input box. -/
theorem mergeBoundingBoxes_contains (boxes : List BoundingBox) :
    ∀ b ∈ boxes, boxContains (mergeBoundingBoxes boxes) b := by
  match boxes with
  | [] => intro b hb; cases hb
  | [b0] =>
    intro b hb
    rw [List.mem_singleton.mp hb]
    exact ⟨le_refl _, le_refl _, le_refl _, le_refl _⟩
  | b1 :: b2 :: rest =>
    intro b hb
    simp only [mergeBoundingBoxes]
    have hx : foldMin b1.x ((b2 :: rest).map (fun c => c.x)) ≤ b.x := by
      rcases List.mem_cons.mp hb with rfl | hb
      · exact foldMin_le_init _ _
      · exact foldMin_le _ _ _ (List.mem_map_of_mem _ hb)
    have hy : foldMin b1.y ((b2 :: rest).map (fun c => c.y)) ≤ b.y := by
      rcases List.mem_cons.mp hb with rfl | hb
      · exact foldMin_le_init _ _
      · exact foldMin_le _ _ _ (List.mem_map_of_mem _ hb)
    have hr : b.x + b.width ≤
        foldMax (b1.x + b1.width) ((b2 :: rest).map (fun c => c.x + c.width)) := by
      rcases List.mem_cons.mp hb with rfl | hb
      · exact le_foldMax_init _ _
      · exact le_foldMax _ _ _ (List.mem_map_of_mem _ hb)
    have hbt : b.y + b.height ≤
        foldMax (b1.y + b1.height) ((b2 :: rest).map (fun c => c.y + c.height)) := by
      rcases List.mem_cons.mp hb with rfl | hb
      · exact le_foldMax_init _ _
      · exact le_foldMax _ _ _ (List.mem_map_of_mem _ hb)
    refine ⟨hx, hy, ?_, ?_⟩
    · calc b.x + b.width ≤ _ := hr
        _ = _ + (_ - _) := by ring
    · calc b.y + b.height ≤ _ := hbt
        _ = _ + (_ - _) := by ring

/-- The merged bounding box is the tightest enclosure: any box enclosing
all inputs encloses it. -/
theorem mergeBoundingBoxes_minimal (boxes : List BoundingBox) (hne : boxes ≠ [])
    (r : BoundingBox) (h : ∀ b ∈ boxes, boxContains r b) :
    boxContains r (mergeBoundingBoxes boxes) := by
  match boxes with
  | [] => exact absurd rfl hne
  | [b0] => exact h b0 (List.mem_singleton_self _)
  | b1 :: b2 :: rest =>
    simp only [mergeBoundingBoxes]
    have h1 := h b1 (List.mem_cons_self _ _)
    have hminx : r.x ≤ foldMin b1.x ((b2 :: rest).map (fun c => c.x)) := by
      refine le_foldMin _ _ _ h1.1 ?_
      intro x hx
      obtain ⟨c, hc, rfl⟩ := List.mem_map.mp hx
      exact (h c (List.mem_cons_of_mem _ hc)).1
    have hminy : r.y ≤ foldMin b1.y ((b2 :: rest).map (fun c => c.y)) := by
      refine le_foldMin _ _ _ h1.2.1 ?_
      intro x hx
      obtain ⟨c, hc, rfl⟩ := List.mem_map.mp hx
      exact (h c (List.mem_cons_of_mem _ hc)).2.1
    have hmaxx : foldMax (b1.x + b1.width) ((b2 :: rest).map (fun c => c.x + c.width)) ≤
        r.x + r.width := by
      refine foldMax_le _ _ _ h1.2.2.1 ?_
      intro x hx
      obtain ⟨c, hc, rfl⟩ := List.mem_map.mp hx
      exact (h c (List.mem_cons_of_mem _ hc)).2.2.1
    have hmaxy : foldMax (b1.y + b1.height) ((b2 :: rest).map (fun c => c.y + c.height)) ≤
        r.y + r.height := by
      refine foldMax_le _ _ _ h1.2.2.2 ?_
      intro x hx
      obtain ⟨c, hc, rfl⟩ := List.mem_map.mp hx
      exact (h c (List.mem_cons_of_mem _ hc)).2.2.2
    refine ⟨hminx, hminy, ?_, ?_⟩
    · calc _ + (_ - _) = _ := by ring
        _ ≤ r.x + r.width := hmaxx
    · calc _ + (_ - _) = _ := by ring
        _ ≤ r.y + r.height := hmaxy

/-- C6: a match reconciles to no bounding box exactly when no token's
linearized-text range intersects the match range (such a match is then
silently dropped by the detection loops, which only emit a detection in the
`some` case); when a box is produced it is the tightest axis-aligned box
enclosing the boxes of all intersecting tokens.  The final conjunct records
that the collection condition equals nonempty range intersection for
nonempty token text. -/
theorem c6_geometry_reconciliation (blocks : List TextBlock) (mi len : Nat)
    (hlen : 1 ≤ len)
    (hboxes : ∀ b ∈ blocks, 0 ≤ b.bbox.width ∧ 0 ≤ b.bbox.height) :
    (findBoundingBoxForMatch len mi blocks = none ↔ intersectingBlocks mi len blocks 0 = []) ∧
    (∀ bbox, findBoundingBoxForMatch len mi blocks = some bbox →
      (∀ b ∈ intersectingBlocks mi len blocks 0, boxContains bbox b.bbox) ∧
      ∀ r, (∀ b ∈ intersectingBlocks mi len blocks 0, boxContains r b.bbox) →
        boxContains r bbox) ∧
    (∀ (s : Nat) (t : List Char), t ≠ [] →
      ((s + t.length > mi ∧ s < mi + len) ↔
        ∃ p, s ≤ p ∧ p < s + t.length ∧ mi ≤ p ∧ p < mi + len)) := by
  have hinv : involvedBlocksAux mi len blocks 0 = intersectingBlocks mi len blocks 0 :=
    involvedBlocksAux_eq_intersecting mi len blocks 0
  refine ⟨?_, ?_, ?_⟩
  · unfold findBoundingBoxForMatch
    rw [hinv]
    cases hc : intersectingBlocks mi len blocks 0 with
    | nil => simp
    | cons b bs => simp
  · intro bbox hbbox
    unfold findBoundingBoxForMatch at hbbox
    rw [hinv] at hbbox
    cases hc : intersectingBlocks mi len blocks 0 with
    | nil => rw [hc] at hbbox; cases hbbox
    | cons b bs =>
      rw [hc] at hbbox
      have hbb : bbox = mergeBoundingBoxes ((b :: bs).map (fun b => b.bbox)) :=
        (Option.some.injEq _ _ ▸ hbbox).symm
      constructor
      · intro tb htb
        rw [hbb]
        exact mergeBoundingBoxes_contains _ _ (List.mem_map_of_mem _ htb)
      · intro r hr
        rw [hbb]
        refine mergeBoundingBoxes_minimal _ (by simp) r ?_
        intro bx hbx
        obtain ⟨tb, htb, rfl⟩ := List.mem_map.mp hbx
        exact hr tb htb
  · intro s t ht
    have htl : 1 ≤ t.length := by
      cases t with
      | nil => exact absurd rfl ht
      | cons c cs => simp
    constructor
    · rintro ⟨h1, h2⟩
      refine ⟨if s ≤ mi then mi else s, ?_, ?_, ?_, ?_⟩ <;> split <;> omega
    · rintro ⟨p, hp1, hp2, hp3, hp4⟩
      omega

/-- A two-token page for the C6 witness. -/
def exBlock1 : TextBlock := ⟨"1234".toList, 0.95, ⟨10, 10, 50, 20⟩⟩

/-- Second token of the C6 witness page. -/
def exBlock2 : TextBlock := ⟨"5678".toList, 0.95, ⟨70, 12, 40, 22⟩⟩

/-- Witness for C6 at a match of length 9 spanning both tokens. -/
theorem c6_geometry_reconciliation_witness :
    (findBoundingBoxForMatch 9 0 [exBlock1, exBlock2] = none ↔
      intersectingBlocks 0 9 [exBlock1, exBlock2] 0 = []) ∧
    (∀ bbox, findBoundingBoxForMatch 9 0 [exBlock1, exBlock2] = some bbox →
      (∀ b ∈ intersectingBlocks 0 9 [exBlock1, exBlock2] 0, boxContains bbox b.bbox) ∧
      ∀ r, (∀ b ∈ intersectingBlocks 0 9 [exBlock1, exBlock2] 0, boxContains r b.bbox) →
        boxContains r bbox) ∧
    (∀ (s : Nat) (t : List Char), t ≠ [] →
      ((s + t.length > 0 ∧ s < 0 + 9) ↔
        ∃ p, s ≤ p ∧ p < s + t.length ∧ 0 ≤ p ∧ p < 0 + 9)) :=
  c6_geometry_reconciliation [exBlock1, exBlock2] 0 9 (by decide)
    (by
      intro b hb
      rcases List.mem_cons.mp hb with rfl | hb
      · constructor <;> norm_num [exBlock1]
      · rw [List.mem_singleton.mp hb]
        constructor <;> norm_num [exBlock2])

/-- A scan over positions where the pattern never matches finds nothing. -/
theorem scanAux_eq_nil (t : Nat → Option Nat) (fuel : Nat) :
    ∀ i, (∀ j, i ≤ j → t j = none) → scanAux t fuel i = [] := by
  induction fuel with
  | zero => intro i _; rfl
  | succ fuel ih =>
    intro i h
    simp only [scanAux, h i (le_refl i)]
    exact ih (i + 1) (fun j hj => h j (by omega))

/-- A scan whose pattern matches only at position 0 (length `L`) finds
exactly that match. -/
theorem scanAux_single (t : Nat → Option Nat) (L fuel : Nat) (hf : 0 < fuel)
    (h0 : t 0 = some L) (hrest : ∀ j, L ≤ j → t j = none) :
    scanAux t fuel 0 = [(0, L)] := by
  cases fuel with
  | zero => omega
  | succ fuel =>
    simp only [scanAux, h0]
    rw [scanAux_eq_nil t fuel (0 + L) (fun j hj => hrest j (by omega))]

/-- A digit is not the literal `+`. -/
theorem isDigit_not_plus (c : Char) (h : c.isDigit = true) : (c == '+') = false := by
  cases hb : (c == '+')
  · rfl
  · rw [beq_iff_eq] at hb
    subst hb
    exact absurd h (by decide)

/-- A digit is not the literal `(`. -/
theorem isDigit_not_lparen (c : Char) (h : c.isDigit = true) : (c == '(') = false := by
  cases hb : (c == '(')
  · rfl
  · rw [beq_iff_eq] at hb
    subst hb
    exact absurd h (by decide)

/-- A digit is in neither side of the separator class `[\s-]`. -/
theorem isDigit_not_sep (c : Char) (h : c.isDigit = true) :
    (c.isWhitespace || c == '-') = false := by
  cases hw : (c.isWhitespace || c == '-')
  · rfl
  · exfalso
    rw [Bool.or_eq_true] at hw
    rcases hw with hw | hw
    · simp [Char.isWhitespace] at hw
      rcases hw with ((rfl | rfl) | rfl) | rfl <;> exact absurd h (by decide)
    · rw [beq_iff_eq] at hw
      subst hw
      exact absurd h (by decide)

/-- A digit is a regex word character. -/
theorem isDigit_isWordChar (c : Char) (h : c.isDigit = true) : isWordChar c = true := by
  simp [isWordChar, Char.isAlphanum, h]

/-- `charSat` is false past the end of the text. -/
theorem charSat_of_oob (cs : List Char) (i : Nat) (p : Char → Bool) (h : cs.length ≤ i) :
    charSat cs i p = false := by
  unfold charSat
  rw [List.getElem?_eq_none h]

/-- In an all-digit text every in-range position is a digit. -/
theorem charSat_isDigit_of_all (cs : List Char) (h : ∀ c ∈ cs, c.isDigit = true)
    (i : Nat) (hi : i < cs.length) : charSat cs i Char.isDigit = true := by
  unfold charSat
  rcases hx : cs[i]? with _ | c
  · rw [List.getElem?_eq_none_iff] at hx
    omega
  · exact h c (List.getElem?_mem hx)

/-- In an all-digit text no position satisfies a digit-excluding class. -/
theorem charSat_false_of_all_digit (cs : List Char) (h : ∀ c ∈ cs, c.isDigit = true)
    (p : Char → Bool) (hp : ∀ c, c.isDigit = true → p c = false) (i : Nat) :
    charSat cs i p = false := by
  unfold charSat
  rcases hx : cs[i]? with _ | c
  · rfl
  · exact hp c (h c (List.getElem?_mem hx))

/-- In-range positions of an all-digit text are word characters. -/
theorem wordAt_digits (cs : List Char) (h : ∀ c ∈ cs, c.isDigit = true)
    (i : Nat) (hi : i < cs.length) : wordAt cs i = true := by
  unfold wordAt charSat
  rcases hx : cs[i]? with _ | c
  · rw [List.getElem?_eq_none_iff] at hx
    omega
  · exact isDigit_isWordChar c (h c (List.getElem?_mem hx))

/-- Positions past the end of the text are non-word. -/
theorem wordAt_oob (cs : List Char) (i : Nat) (h : cs.length ≤ i) : wordAt cs i = false :=
  charSat_of_oob cs i isWordChar h

/-- A digit run inside an all-digit text succeeds. -/
theorem digitRunAt_of_all (cs : List Char) (h : ∀ c ∈ cs, c.isDigit = true)
    (i k : Nat) (hik : i + k ≤ cs.length) : digitRunAt cs i k = true := by
  unfold digitRunAt
  rw [List.all_eq_true]
  intro j hj
  rw [List.mem_range] at hj
  exact charSat_isDigit_of_all cs h (i + j) (by omega)

/-- A nonempty digit run starting past the end of the text fails. -/
theorem digitRunAt_oob (cs : List Char) (i k : Nat) (hk : 1 ≤ k) (h : cs.length ≤ i) :
    digitRunAt cs i k = false := by
  unfold digitRunAt
  rw [List.all_eq_false]
  refine ⟨0, List.mem_range.mpr (by omega), ?_⟩
  rw [charSat_of_oob cs (i + 0) Char.isDigit (by omega)]
  simp

/-- The `+91` phone pattern never fires in an all-digit text (no `+`). -/
theorem scan_tryPlus91_digits (cs : List Char) (h : ∀ c ∈ cs, c.isDigit = true) :
    scanPattern tryPlus91 cs = [] := by
  apply scanAux_eq_nil
  intro j _
  unfold tryPlus91
  have hplus : charSat cs j (fun c => c == '+') = false :=
    charSat_false_of_all_digit cs h _ (fun c hc => isDigit_not_plus c hc) j
  rw [hplus]
  rfl

/-- The parenthesised phone pattern never fires in an all-digit text. -/
theorem scan_tryParen91_digits (cs : List Char) (h : ∀ c ∈ cs, c.isDigit = true) :
    scanPattern tryParen91 cs = [] := by
  apply scanAux_eq_nil
  intro j _
  unfold tryParen91
  have hlp : charSat cs j (fun c => c == '(') = false :=
    charSat_false_of_all_digit cs h _ (fun c hc => isDigit_not_lparen c hc) j
  rw [hlp]
  rfl

/-- The `91<sep>` phone pattern never fires in an all-digit text (no
separator). -/
theorem scan_try91Sep_digits (cs : List Char) (h : ∀ c ∈ cs, c.isDigit = true) :
    scanPattern try91Sep cs = [] := by
  apply scanAux_eq_nil
  intro j _
  unfold try91Sep
  have hsep : sepAt cs (j + 2) = false :=
    charSat_false_of_all_digit cs h _ (fun c hc => isDigit_not_sep c hc) (j + 2)
  rw [hsep]
  simp

/-- The 5-5 grouped phone pattern never fires in an all-digit text. -/
theorem scan_try55_digits (cs : List Char) (h : ∀ c ∈ cs, c.isDigit = true) :
    scanPattern try55 cs = [] := by
  apply scanAux_eq_nil
  intro j _
  unfold try55
  have hsep : sepAt cs (j + 5) = false :=
    charSat_false_of_all_digit cs h _ (fun c hc => isDigit_not_sep c hc) (j + 5)
  rw [hsep]
  simp

/-- The 3-3-4 grouped phone pattern never fires in an all-digit text. -/
theorem scan_try334_digits (cs : List Char) (h : ∀ c ∈ cs, c.isDigit = true) :
    scanPattern try334 cs = [] := by
  apply scanAux_eq_nil
  intro j _
  unfold try334
  have hsep : sepAt cs (j + 3) = false :=
    charSat_false_of_all_digit cs h _ (fun c hc => isDigit_not_sep c hc) (j + 3)
  rw [hsep]
  simp

/-- On a 10-digit text, `\b\d{10}\b` matches at position 0. -/
theorem tryPlain_digits_zero (cs : List Char) (h : ∀ c ∈ cs, c.isDigit = true)
    (hlen : cs.length = 10) : tryPlain 10 cs 0 = some 10 := by
  unfold tryPlain
  have hb0 : boundaryAt cs 0 = true := by
    unfold boundaryAt
    rw [show prevWordAt cs 0 = false from rfl, wordAt_digits cs h 0 (by omega)]
    rfl
  have hb10 : boundaryAt cs (0 + 10) = true := by
    show boundaryAt cs 10 = true
    unfold boundaryAt
    rw [show prevWordAt cs 10 = wordAt cs 9 from rfl, wordAt_digits cs h 9 (by omega),
      wordAt_oob cs 10 (by omega)]
    rfl
  rw [hb0, hb10, digitRunAt_of_all cs h 0 10 (by omega)]
  rfl

/-- On a 10-digit text, `\b\d{10}\b` cannot match at or past position 10. -/
theorem tryPlain_digits_ge (cs : List Char) (hlen : cs.length = 10)
    (j : Nat) (hj : 10 ≤ j) : tryPlain 10 cs j = none := by
  unfold tryPlain
  rw [digitRunAt_oob cs j 10 (by omega) (by omega)]
  simp

/-- On a 10-digit text, the plain phone pattern finds exactly the whole
text (positions 1–9 sit inside a digit run, so no word boundary). -/
theorem scan_tryPlain_digits (cs : List Char) (h : ∀ c ∈ cs, c.isDigit = true)
    (hlen : cs.length = 10) : scanPattern (tryPlain 10) cs = [(0, 10)] := by
  unfold scanPattern
  rw [hlen]
  exact scanAux_single _ 10 11 (by omega) (tryPlain_digits_zero cs h hlen)
    (fun j hj => tryPlain_digits_ge cs hlen j hj)

/-- C10: a token that is exactly a 10-digit string beginning with `91`
yields no Phone detection: the only candidate is the full 10-digit match,
whose leading `91` is stripped unconditionally, leaving 8 digits, which
fails the 10-digit validity check. -/
theorem c10_country_code_lookalike (pn : Nat) (w hgt conf : Rat) (box : BoundingBox)
    (rest : List Char) (hlen8 : rest.length = 8) (hd : ∀ c ∈ rest, c.isDigit = true) :
    detectPhonePage ⟨pn, w, hgt, [⟨'9' :: '1' :: rest, conf, box⟩]⟩ = [] := by
  have hall : ∀ c ∈ '9' :: '1' :: rest, c.isDigit = true := by
    intro c hc
    rcases List.mem_cons.mp hc with rfl | hc
    · decide
    rcases List.mem_cons.mp hc with rfl | hc
    · decide
    · exact hd c hc
  have hlen : ('9' :: '1' :: rest).length = 10 := by simp [hlen8]
  have hjoin : joinTexts [⟨'9' :: '1' :: rest, conf, box⟩] = '9' :: '1' :: rest := by
    simp [joinTexts, List.intercalate]
  simp only [detectPhonePage]
  rw [hjoin]
  have hm : matchesFor phonePatterns ('9' :: '1' :: rest) = [(0, 10)] := by
    simp [matchesFor, phonePatterns, scan_tryPlain_digits _ hall hlen,
      scan_tryPlus91_digits _ hall, scan_try91Sep_digits _ hall,
      scan_tryParen91_digits _ hall, scan_try55_digits _ hall, scan_try334_digits _ hall]
  rw [hm, List.foldl_cons, List.foldl_nil]
  simp only [phoneFoldStep]
  have hslice : sliceAt ('9' :: '1' :: rest) 0 10 = '9' :: '1' :: rest := by
    unfold sliceAt
    rw [List.drop_zero, ← hlen, List.take_length]
  rw [hslice]
  have hdig : digitsOf ('9' :: '1' :: rest) = '9' :: '1' :: rest :=
    List.filter_eq_self.mpr hall
  rw [hdig]
  simp [strip91, hlen8]

/-- Witness for C10 at the concrete token "9123456789". -/
theorem c10_country_code_lookalike_witness :
    detectPhonePage ⟨1, 800, 600, [⟨'9' :: '1' :: "23456789".toList, 0.95, exBBox⟩]⟩ = [] :=
  c10_country_code_lookalike 1 800 600 0.95 exBBox ("23456789".toList) (by decide) (by decide)
